import Mathlib

set_option maxHeartbeats 1000000
set_option maxRecDepth 8192

/-!
Shallow embedding of `src/aiops_triage.py` (an AI-ops log triage pipeline).

Strings are modelled as Lean `String` (= packed `List Char`); the Python
regular expressions used by the program are hand-compiled to deterministic
scanners over `List Char`.  Each compilation step is justified next to the
definition: for every `re` construct used by the source, greedy/lazy
backtracking collapses to maximal/minimal-run lexing because the character
following each repetition can never be a member of the repeated class.
Character classes (`\d`, `\s`, `\w`, `str.lower`, `re.IGNORECASE`) are
modelled at ASCII precision.
-/

/-! ### Character classes (Python `\d`, `\s`, `\w`, ASCII) -/

/-- Python `\d` (ASCII): decimal digits `'0'..'9'`. -/
def isDigitChar (c : Char) : Bool := 48 ≤ c.toNat && c.toNat ≤ 57

/-- Python `\s` (ASCII): space, tab, newline, carriage return, vertical tab, form feed. -/
def isWS (c : Char) : Bool :=
  c.toNat == 32 || c.toNat == 9 || c.toNat == 10 || c.toNat == 13 || c.toNat == 11 || c.toNat == 12

/-- Python `\w` (ASCII): letters, digits and underscore. -/
def isWordChar (c : Char) : Bool :=
  (65 ≤ c.toNat && c.toNat ≤ 90) || (97 ≤ c.toNat && c.toNat ≤ 122) || isDigitChar c || c == '_'

/-- Negation of `isWS`, i.e. Python `\S`. -/
def notWS (c : Char) : Bool := !(isWS c)

/-- Python `str.lower` at ASCII precision (maps `'A'..'Z'` to `'a'..'z'`),
which is exactly core `Char.toLower`. -/
def pyLower (l : List Char) : List Char := l.map Char.toLower

/-- Removal of trailing whitespace (the right half of Python `str.strip`). -/
def rstripWS (l : List Char) : List Char := (l.reverse.dropWhile isWS).reverse

/-- Python `str.strip()`: remove leading and trailing whitespace
(removing trailing first; the two removals commute). -/
def pystrip (l : List Char) : List Char := (rstripWS l).dropWhile isWS

/-! ### `LogEntry` and `parse_log_line` (source lines 24-40) -/

/-- The `LogEntry` dataclass of the source. -/
structure LogEntry where
  timestamp : String
  service : String
  level : String
  message : String
  deriving DecidableEq

/-- The trailing `(.*)$` of the log-line regex (no `re.DOTALL`): `.` matches
anything but `'\n'`, and `$` matches at end of input or just before a final
`'\n'`.  Hence the capture succeeds iff the rest contains no `'\n'`
(capturing all of it) or ends with its unique `'\n'` (capturing all but it). -/
def dotStarDollar (rest : List Char) : Option (List Char) :=
  if rest.contains '\n' then
    if rest.getLast? == some '\n' && !(rest.dropLast.contains '\n') then some rest.dropLast
    else none
  else some rest

/-- Final stage: wrap the captured message (when the `(.*)$` tail matched)
into the `LogEntry`. -/
def emitEntry (ts srv lvl : List Char) : Option (List Char) → Option LogEntry
  | some msg => some ⟨⟨ts⟩, ⟨srv⟩, ⟨lvl⟩, ⟨msg⟩⟩
  | none => none

/-- Stage for `:` then `\s+` then `(.*)$`: the character after the level run
must be a literal `':'`, followed by a nonempty whitespace run (maximal: the
capture starts at the first non-space or the end). -/
def grabColon (ts srv lvl : List Char) : List Char → Option LogEntry
  | [] => none
  | y :: r8 =>
    if y = ':' then
      let w3 := r8.takeWhile isWS
      if w3.isEmpty then none else
      emitEntry ts srv lvl (dotStarDollar (r8.dropWhile isWS))
    else none

/-- Stage for `(\w+)`: a nonempty maximal word run (shortening it would put a
word character where `':'` must match). -/
def grabLevel (ts srv : List Char) (r6 : List Char) : Option LogEntry :=
  let lvl := r6.takeWhile isWordChar
  if lvl.isEmpty then none else
  grabColon ts srv lvl (r6.dropWhile isWordChar)

/-- Stage for `\]` then `\s+`: the character the service run stopped at must
exist (it is necessarily `']'`), followed by a nonempty maximal whitespace
run. -/
def grabCloseBracket (ts srv : List Char) : List Char → Option LogEntry
  | [] => none
  | x :: r5 =>
    if x = ']' then
      let w2 := r5.takeWhile isWS
      if w2.isEmpty then none else
      grabLevel ts srv (r5.dropWhile isWS)
    else none

/-- Stage for `\[([^\]]+)`: a literal `'['`, then a nonempty run of
non-`']'` characters, maximal (it stops exactly at the first `']'`). -/
def grabBracket (ts : List Char) : List Char → Option LogEntry
  | [] => none
  | b :: r3 =>
    if b = '[' then
      let srv := r3.takeWhile (fun c => !(c == ']'))
      if srv.isEmpty then none else
      grabCloseBracket ts srv (r3.dropWhile (fun c => !(c == ']')))
    else none

/-- Hand-compiled matcher for `re.match(r"^(\S+)\s+\[([^\]]+)\]\s+(\w+):\s+(.*)$", line)`.
Each greedy `+` run is maximal with no residual backtracking: the token that
follows each run (`\s` after `\S+`, `'['` after `\s+`, `']'` after `[^\]]+`,
`':'` after `\w+`, `\S` or end after the final `\s+`) is never a member of
the repeated class, so shortening a run can never enable the next token. -/
def matchGrammar (t : List Char) : Option LogEntry :=
  let ts := t.takeWhile notWS
  let r1 := t.dropWhile notWS
  if ts.isEmpty then none else
  let w1 := r1.takeWhile isWS
  if w1.isEmpty then none else
  grabBracket ts (r1.dropWhile isWS)

/-- `parse_log_line` (source lines 32-40): strip the line, return `None` when
empty, otherwise match the line grammar. -/
def parse_log_line (line : String) : Option LogEntry :=
  let t := pystrip line.data
  if t.isEmpty then none else matchGrammar t

/-! ### `derive_incident_key` (source lines 56-60) -/

/-- The placeholder the source substitutes for each digit run. -/
def numTok : List Char := ['<', 'N', 'U', 'M', '>']

/-- Worker for `re.sub(r"\d+", "<NUM>", s)`: the flag records whether the
previous character was a digit (i.e. we are inside an already-replaced run). -/
def subNumAux : Bool → List Char → List Char
  | _, [] => []
  | inDigit, c :: cs =>
    if isDigitChar c then (if inDigit then [] else numTok) ++ subNumAux true cs
    else c :: subNumAux false cs

/-- `re.sub(r"\d+", "<NUM>", s)`: replace every maximal run of decimal digits
by `<NUM>`. -/
def subNum (l : List Char) : List Char := subNumAux false l

/-- Worker for `re.sub(r"\s+", " ", s)`: the flag records whether the
previous character was whitespace. -/
def collapseWSAux : Bool → List Char → List Char
  | _, [] => []
  | inWS, c :: cs =>
    if isWS c then (if inWS then [] else [' ']) ++ collapseWSAux true cs
    else c :: collapseWSAux false cs

/-- `re.sub(r"\s+", " ", s)`: replace every maximal whitespace run by one space. -/
def collapseWS (l : List Char) : List Char := collapseWSAux false l

/-- The message normalization of `derive_incident_key`: lower-case, replace
digit runs by `<NUM>`, collapse whitespace runs to one space, strip. -/
def normalizeMsg (m : List Char) : List Char :=
  pystrip (collapseWS (subNum (pyLower m)))

/-- `derive_incident_key` (source lines 56-60):
`f"{entry.service}::{normalized_msg}"`. -/
def derive_incident_key (entry : LogEntry) : String :=
  entry.service ++ "::" ++ String.mk (normalizeMsg entry.message.data)

/-! ### `group_incidents` (source lines 63-70)

Python dicts (and `defaultdict`) iterate in key-insertion order, so the
mapping is modelled as an association list in which a new key is appended at
the end and an existing key has the entry appended to its sequence. -/

/-- The filter `e.level not in {"ERROR", "WARN"}: continue` of the source. -/
def isActionable (e : LogEntry) : Bool := e.level == "ERROR" || e.level == "WARN"

/-- `groups[key].append(e)` on an insertion-ordered dict. -/
def insertGroup : List (String × List LogEntry) → String → LogEntry → List (String × List LogEntry)
  | [], k, e => [(k, [e])]
  | (k', es) :: rest, k, e =>
    if k' = k then (k', es ++ [e]) :: rest else (k', es) :: insertGroup rest k e

/-- `group_incidents` (source lines 63-70). -/
def group_incidents (entries : List LogEntry) : List (String × List LogEntry) :=
  entries.foldl
    (fun gs e => if isActionable e then insertGroup gs (derive_incident_key e) e else gs) []

/-! ### `KNOWLEDGE_BASE` and `retrieve_runbook` (source lines 16-21, 73-78) -/

/-- The `KNOWLEDGE_BASE` dict of the source, in declared (= iteration) order. -/
def KNOWLEDGE_BASE : List (String × String) :=
  [("database connection timeout",
    "RUNBOOK-DB-001: Check RDS CPU utilization. If > 80%, scale up read replicas. If normal, check VPC security groups."),
   ("payment gateway timeout",
    "RUNBOOK-PAY-99: Verify Stripe API status page. If Stripe is up, check internal NAT gateway latency."),
   ("token signature validation",
    "RUNBOOK-AUTH-55: Rotate JWT public keys. Check if client clock skew > 5 minutes."),
   ("slow response",
    "RUNBOOK-PERF-12: Check Redis cache hit rate. If < 50%, flush cache or increase memory.")]

/-- Contiguous substring test: does `needle` start at some position of `hay`? -/
def containsSub (needle : List Char) : List Char → Bool
  | [] => needle.isEmpty
  | c :: cs => needle.isPrefixOf (c :: cs) || containsSub needle cs

/-- Python `needle in hay` on strings: contiguous substring containment. -/
def pyInStr (needle hay : String) : Bool := containsSub needle.data hay.data

/-- The `for keyword, runbook in KNOWLEDGE_BASE.items()` loop of
`retrieve_runbook`. -/
def retrieveAux : List (String × String) → String → String
  | [], _ => "No specific runbook found. Follow general triage SOP."
  | (kw, rb) :: rest, pattern => if pyInStr kw pattern then rb else retrieveAux rest pattern

/-- `retrieve_runbook` (source lines 73-78). -/
def retrieve_runbook (pattern : String) : String :=
  retrieveAux KNOWLEDGE_BASE pattern

/-! ### `build_summary_prompt` (source lines 83-106) -/

/-- `incident_key.split("::", 1)`: split at the first occurrence of `"::"`.
Returns `none` when the separator is absent (the Python unpacking
`service, pattern = ...` would raise there). -/
def splitOnColons : List Char → Option (List Char × List Char)
  | [] => none
  | c :: cs =>
    if [':', ':'].isPrefixOf (c :: cs) then some ([], (c :: cs).drop 2)
    else
      match splitOnColons cs with
      | some (a, b) => some (c :: a, b)
      | none => none

/-- `f"{e.timestamp} [{e.level}] {e.message}"` (source line 85). -/
def renderLog (e : LogEntry) : String :=
  e.timestamp ++ " [" ++ e.level ++ "] " ++ e.message

/-- Python `l[-n:]`: the last `n` elements (all of `l` when shorter). -/
def lastN (n : Nat) (l : List α) : List α := l.drop (l.length - n)

/-- The f-string template text before `{logs_text}` (source lines 88-102). -/
def promptLit1 : String :=
  "\nGiven the logs, output a triage report.\n\n[EXAMPLE]\nInput Logs: 2024-01-01 [orders] ERROR connection timed out\nRunbook context: Check DB.\nReport:\nSummary: Database connection failing intermittently.\nSeverity: P2\nRoot Cause: High database load or network partition.\nAction Items: Check RDS CPU, Investigate VPC logs\n\n[TARGET]\nInput Logs:\n"

/-- The template text between `{logs_text}` and `{runbook_context}`. -/
def promptLit2 : String := "\nRunbook context: "

/-- The template text after `{runbook_context}`. -/
def promptLit3 : String := "\nReport:\n"

/-- `build_summary_prompt` (source lines 83-106): split the key, render the
last five entries, retrieve the runbook for the pattern half, fill the
template and `.strip()` it. -/
def build_summary_prompt (incident_key : String) (entries : List LogEntry) : Option String :=
  match splitOnColons incident_key.data with
  | none => none
  | some (_, patternChars) =>
    let logs_text := String.intercalate "\n" ((lastN 5 entries).map renderLog)
    let runbook_context := retrieve_runbook (String.mk patternChars)
    some (String.mk (pystrip (promptLit1 ++ logs_text ++ promptLit2 ++ runbook_context ++ promptLit3).data))

/-! ### `parse_llm_output_to_json` (source lines 108-137)

The four `re.search` calls are hand-compiled.  All use `re.IGNORECASE`
(label letters compared through `Char.toLower`); the `.*` ones also use
`re.DOTALL` (`.` matches every character).  In
`Label:\s*...` the greedy `\s*` never backtracks, because the character
that must follow it (`P`/`p`, or the first character of the lazy/greedy
capture group whose lookahead continuation again starts with a non-space
requirement or accepts everything) can equivalently be taken at the end of
the maximal whitespace run; for the capture groups this is spelled out at
each definition. -/

/-- Case-insensitive literal prefix match (pattern given lower-case);
returns the rest after the matched prefix. -/
def stripPrefixCI : List Char → List Char → Option (List Char)
  | [], l => some l
  | _ :: _, [] => none
  | p :: ps, c :: cs => if Char.toLower c == p then stripPrefixCI ps cs else none

/-- Whether `l` starts with the lower-case literal `pat`, case-insensitively. -/
def startsWithCI (pat l : List Char) : Bool := (stripPrefixCI pat l).isSome

/-- Leftmost case-insensitive occurrence of the literal `pat` (nonempty);
returns the suffix after it.  This is the position `re.search` selects,
since every pattern below begins with its literal label. -/
def findLabelSuffix (pat : List Char) : List Char → Option (List Char)
  | [] => none
  | c :: cs =>
    match stripPrefixCI pat (c :: cs) with
    | some rest => some rest
    | none => findLabelSuffix pat cs

/-- `$` of Python `re` (no `re.MULTILINE`): matches at end of input or just
before a final `'\n'`. -/
def dollarAt (rest : List Char) : Bool := rest.isEmpty || rest == ['\n']

/-- The lookahead `(?=\s*Severity:|$)`: its inner greedy `\s*` must end at
the first non-space (the label starts with a letter), so it holds iff the
rest after its whitespace run starts with the label, or `$` matches here. -/
def sumLookahead (rest : List Char) : Bool :=
  startsWithCI "severity:".data (rest.dropWhile isWS) || dollarAt rest

/-- The lookahead `(?=\s*Action Items:|$)`. -/
def rcLookahead (rest : List Char) : Bool :=
  startsWithCI "action items:".data (rest.dropWhile isWS) || dollarAt rest

/-- The lookahead `(?=\s*Root Cause:|$)`. -/
def sevLookahead (rest : List Char) : Bool :=
  startsWithCI "root cause:".data (rest.dropWhile isWS) || dollarAt rest

/-- Lazy capture `(.*?)(?=look)` under `re.DOTALL`: the shortest prefix whose
complement satisfies the lookahead.  Total because the `$` alternative of
every lookahead used accepts the empty rest. -/
def lazyCapture (look : List Char → Bool) : List Char → List Char
  | [] => []
  | c :: cs => if look (c :: cs) then [] else c :: lazyCapture look cs

/-- One anchored attempt of `Severity:\s*(P\d)(?=\s*Root Cause:|$)`: after
the label, the greedy `\s*` must be the maximal whitespace run (`P`/`p` is
not whitespace, so no shorter run can match), then one `P`/`p`
(`re.IGNORECASE`), one digit, then the lookahead.  Returns the two captured
characters. -/
def sevHere (l : List Char) : Option (Char × Char) :=
  match stripPrefixCI "severity:".data l with
  | none => none
  | some r0 =>
    match r0.dropWhile isWS with
    | p :: d :: rest =>
      if (p == 'P' || p == 'p') && isDigitChar d && sevLookahead rest then some (p, d) else none
    | _ => none

/-- `re.search` for the severity pattern: first position whose anchored
attempt succeeds. -/
def sevScan : List Char → Option (Char × Char)
  | [] => none
  | c :: cs =>
    match sevHere (c :: cs) with
    | some pd => some pd
    | none => sevScan cs

/-- Worker for `str.replace("[TARGET]", "")`: the counter is the number of
characters of a just-matched occurrence still to be skipped. -/
def removeTargetAux : Nat → List Char → List Char
  | _, [] => []
  | Nat.succ n, _ :: cs => removeTargetAux n cs
  | 0, c :: cs =>
    if "[TARGET]".data.isPrefixOf (c :: cs) then removeTargetAux 7 cs
    else c :: removeTargetAux 0 cs

/-- `raw_actions.replace("[TARGET]", "")`: remove every (non-overlapping)
occurrence, left to right. -/
def removeTarget (l : List Char) : List Char := removeTargetAux 0 l

/-- Python `str.split(',')`: split at every comma, keeping empty pieces
(so the empty string yields one empty piece). -/
def splitOnComma : List Char → List (List Char)
  | [] => [[]]
  | c :: cs =>
    if c == ',' then [] :: splitOnComma cs
    else
      match splitOnComma cs with
      | h :: t => (c :: h) :: t
      | [] => [[c]]

/-- The structured record built by `parse_llm_output_to_json`. -/
structure TriageReport where
  summary : String
  severity : String
  root_cause : String
  action_items : List String
  deriving DecidableEq

/-- `parse_llm_output_to_json` (source lines 108-137).  For the three `.*`
groups: once the label is found, the `\s*(.*?)(?=...|$)` (or `\s*(.*)`)
continuation always succeeds with the maximal `\s*` run (the lazy group can
reach the end of input, where `$` holds; the greedy `(.*)` takes the whole
rest), so the capture starts after the whitespace run following the leftmost
label occurrence and no backtracking over `\s*` occurs. -/
def parse_llm_output_to_json (text : String) : TriageReport :=
  let t := text.data
  let summary :=
    match findLabelSuffix "summary:".data t with
    | some rest => String.mk (pystrip (lazyCapture sumLookahead (rest.dropWhile isWS)))
    | none => "N/A"
  let severity :=
    match sevScan t with
    | some (p, d) => String.mk (pystrip [p, d])
    | none => "P3"
  let root_cause :=
    match findLabelSuffix "root cause:".data t with
    | some rest => String.mk (pystrip (lazyCapture rcLookahead (rest.dropWhile isWS)))
    | none => "N/A"
  let action_items :=
    match findLabelSuffix "action items:".data t with
    | some rest =>
      let raw := pystrip (rest.dropWhile isWS)
      let raw2 := pystrip (removeTarget raw)
      (((splitOnComma raw2).map pystrip).filter (fun a => !a.isEmpty)).map String.mk
    | none => ([] : List String)
  ⟨summary, severity, root_cause, action_items⟩

/-! ### Specification-side vocabulary

These definitions are not translations of source code; they are the
vocabulary in which the claims are stated: message decompositions into
literal text and digit runs (C1), the line grammar as a relation (C6), and
first-insertion order / association-list lookup (C7). -/

/-- A message piece: literal (digit-free) text or a run of digits. -/
inductive Piece where
  | lit (s : List Char) : Piece
  | digits (d : List Char) : Piece
  deriving DecidableEq

/-- Concatenation of the pieces back into a message. -/
def renderPieces : List Piece → List Char
  | [] => []
  | .lit s :: r => s ++ renderPieces r
  | .digits d :: r => d ++ renderPieces r

/-- After a digit run, the next piece must be nonempty literal text (or the
end), so that rendered digit runs are maximal. -/
def headLit : List Piece → Bool
  | [] => true
  | .lit s :: _ => !s.isEmpty
  | .digits _ :: _ => false

/-- Well-formed decomposition: literals are digit-free, digit runs are
nonempty all-digit and followed by nonempty literal text or the end. -/
def goodPieces : List Piece → Bool
  | [] => true
  | .lit s :: r => s.all (fun c => !(isDigitChar c)) && goodPieces r
  | .digits d :: r => !d.isEmpty && d.all isDigitChar && headLit r && goodPieces r

/-- Two decompositions are identical except for the digit runs in the same
positions. -/
inductive Aligned : List Piece → List Piece → Prop where
  | nil : Aligned [] []
  | lit (s : List Char) {r1 r2 : List Piece} :
      Aligned r1 r2 → Aligned (.lit s :: r1) (.lit s :: r2)
  | num (d1 d2 : List Char) {r1 r2 : List Piece} :
      Aligned r1 r2 → Aligned (.digits d1 :: r1) (.digits d2 :: r2)

/-- Lower-casing a piece. -/
def lowerPiece : Piece → Piece
  | .lit s => .lit (pyLower s)
  | .digits d => .digits (pyLower d)

/-- The log-line grammar `<timestamp> [<service>] <level>: <message>` as a
relation: `t` decomposes into the four fields of `e` with nonempty
whitespace separators; the final field is the message, optionally followed
by one terminal newline (the `$` of the regex). -/
def MatchesG (t : List Char) (e : LogEntry) : Prop :=
  ∃ w1 w2 w3 tail : List Char,
    t = e.timestamp.data ++ w1 ++ ['['] ++ e.service.data ++ [']'] ++ w2 ++
        e.level.data ++ [':'] ++ w3 ++ tail ∧
    e.timestamp.data ≠ [] ∧ (∀ c ∈ e.timestamp.data, isWS c = false) ∧
    w1 ≠ [] ∧ (∀ c ∈ w1, isWS c = true) ∧
    e.service.data ≠ [] ∧ (∀ c ∈ e.service.data, c ≠ ']') ∧
    w2 ≠ [] ∧ (∀ c ∈ w2, isWS c = true) ∧
    e.level.data ≠ [] ∧ (∀ c ∈ e.level.data, isWordChar c = true) ∧
    w3 ≠ [] ∧ (∀ c ∈ w3, isWS c = true) ∧
    (∀ c, tail.head? = some c → isWS c = false) ∧
    (tail = e.message.data ∨ tail = e.message.data ++ ['\n']) ∧
    (∀ c ∈ e.message.data, c ≠ '\n')

/-- First-match lookup in an association list (dict lookup). -/
def lookupG : List (String × List LogEntry) → String → Option (List LogEntry)
  | [], _ => none
  | (k, v) :: rest, k' => if k = k' then some v else lookupG rest k'

/-- The keys of a list in first-occurrence order. -/
def firstSeenKeys (ks : List String) : List String :=
  ks.foldl (fun acc k => if k ∈ acc then acc else acc ++ [k]) []

/-! ### Helper lemmas -/

theorem digit_not_ws {c : Char} (h : isDigitChar c = true) : isWS c = false := by
  simp only [isDigitChar, Bool.and_eq_true, decide_eq_true_eq] at h
  simp only [isWS, Bool.or_eq_false_iff, beq_eq_false_iff_ne, ne_eq]
  omega

theorem retrieveAux_eq_find (kb : List (String × String)) (pattern : String) :
    retrieveAux kb pattern =
      (match kb.find? (fun kv => pyInStr kv.1 pattern) with
       | some kv => kv.2
       | none => "No specific runbook found. Follow general triage SOP.") := by
  induction kb with
  | nil => rfl
  | cons kv rest ih =>
    obtain ⟨kw, rb⟩ := kv
    by_cases h : pyInStr kw pattern = true
    · simp [retrieveAux, List.find?_cons, h]
    · simp only [Bool.not_eq_true] at h
      simp [retrieveAux, List.find?_cons, h, ih]

theorem sevHere_shape {l : List Char} {p d : Char} (h : sevHere l = some (p, d)) :
    (p = 'P' ∨ p = 'p') ∧ isDigitChar d = true := by
  unfold sevHere at h
  split at h
  · exact absurd h (by simp)
  · split at h
    · rename_i a b rest heq
      split at h
      · rename_i hcond
        injection h with h'
        obtain ⟨rfl, rfl⟩ := Prod.mk.inj h'
        simp only [Bool.and_eq_true, Bool.or_eq_true, beq_iff_eq] at hcond
        exact ⟨hcond.1.1, hcond.1.2⟩
      · exact absurd h (by simp)
    · exact absurd h (by simp)

theorem sevScan_shape {l : List Char} {p d : Char} (h : sevScan l = some (p, d)) :
    (p = 'P' ∨ p = 'p') ∧ isDigitChar d = true := by
  induction l with
  | nil => exact absurd h (by simp [sevScan])
  | cons c cs ih =>
    rw [sevScan] at h
    cases hh : sevHere (c :: cs) with
    | some pd => rw [hh] at h; injection h with h'; subst h'; exact sevHere_shape hh
    | none => rw [hh] at h; exact ih h

theorem sevScan_eq_none {l : List Char} (h : ∀ n, n ≤ l.length → sevHere (l.drop n) = none) :
    sevScan l = none := by
  induction l with
  | nil => rfl
  | cons c cs ih =>
    rw [sevScan]
    have h0 := h 0 (Nat.zero_le _)
    simp only [List.drop_zero] at h0
    rw [h0]
    exact ih fun n hn => by
      have := h (n + 1) (by simpa using Nat.succ_le_succ hn)
      simpa [List.drop_succ_cons] using this

theorem severity_of_parse (text : String) :
    (parse_llm_output_to_json text).severity =
      (match sevScan text.data with
       | some (p, d) => String.mk (pystrip [p, d])
       | none => "P3") := rfl

theorem pystrip_pair {p d : Char} (hp : isWS p = false) (hd : isWS d = false) :
    pystrip [p, d] = [p, d] := by
  simp [pystrip, rstripWS, hp, hd]

/-! ### Claim theorems -/

/-- C2: `parse_llm_output_to_json` is a total function (the extraction never
fails), and on the empty string it returns exactly the default record:
summary `"N/A"`, severity `"P3"`, root cause `"N/A"`, no action items. -/
theorem extractor_total_and_default_on_empty :
    (∀ s : String, ∃ r : TriageReport, parse_llm_output_to_json s = r) ∧
    parse_llm_output_to_json "" = ⟨"N/A", "P3", "N/A", []⟩ :=
  ⟨fun s => ⟨parse_llm_output_to_json s, rfl⟩, by decide⟩

/-- C3 counterexample: on input `"Severity: P9"` the extractor returns
severity `"P9"`, which is not one of `P1`-`P4`; the claim that the severity
field always lies in that four-element set is false. -/
theorem severity_not_limited_to_p1_p4 :
    (parse_llm_output_to_json "Severity: P9").severity = "P9" ∧
    ("P9" : String) ∉ (["P1", "P2", "P3", "P4"] : List String) := by
  decide

/-- C3 amended: for every input string, the severity field of the report is
either the default `"P3"` or a two-character string consisting of `'P'` or
`'p'` (the match is case-insensitive) followed by one decimal digit. -/
theorem severity_shape (text : String) :
    (parse_llm_output_to_json text).severity = "P3" ∨
    ∃ p d : Char, (p = 'P' ∨ p = 'p') ∧ isDigitChar d = true ∧
      (parse_llm_output_to_json text).severity = String.mk [p, d] := by
  rw [severity_of_parse]
  cases h : sevScan text.data with
  | none => exact Or.inl rfl
  | some pd =>
    obtain ⟨p, d⟩ := pd
    obtain ⟨hp, hd⟩ := sevScan_shape h
    refine Or.inr ⟨p, d, hp, hd, ?_⟩
    have hp' : isWS p = false := by rcases hp with rfl | rfl <;> decide
    show String.mk (pystrip [p, d]) = String.mk [p, d]
    rw [pystrip_pair hp' (digit_not_ws hd)]

/-- C4: if no position of the input text carries a match of the severity
pattern - that is, no (case-insensitive) `Severity:` label is followed,
after optional whitespace, by `P`/`p` and exactly one digit extending to the
next `Root Cause:` label or the end of text - then the extractor keeps the
default severity `"P3"`. -/
theorem invalid_severity_keeps_default (text : String)
    (h : ∀ n, n ≤ text.data.length → sevHere (text.data.drop n) = none) :
    (parse_llm_output_to_json text).severity = "P3" := by
  rw [severity_of_parse, sevScan_eq_none h]

/-- Witness for C4: `extract("Summary: x Severity: CRITICAL Root Cause: y")`
yields severity `"P3"`, not `"CRITICAL"`. -/
theorem invalid_severity_keeps_default_witness :
    (∀ n, n ≤ ("Summary: x Severity: CRITICAL Root Cause: y" : String).data.length →
        sevHere (("Summary: x Severity: CRITICAL Root Cause: y" : String).data.drop n) = none) ∧
    (parse_llm_output_to_json "Summary: x Severity: CRITICAL Root Cause: y").severity = "P3" :=
  ⟨by decide, invalid_severity_keeps_default "Summary: x Severity: CRITICAL Root Cause: y" (by decide)⟩

/-- C5: `retrieve_runbook` returns the runbook of the first keyword of the
knowledge base, in declared order, that occurs as a substring of the
pattern, and the fixed fallback string when no keyword occurs. -/
theorem retrieve_runbook_first_match (pattern : String) :
    retrieve_runbook pattern =
      (match KNOWLEDGE_BASE.find? (fun kv => pyInStr kv.1 pattern) with
       | some kv => kv.2
       | none => "No specific runbook found. Follow general triage SOP.") :=
  retrieveAux_eq_find KNOWLEDGE_BASE pattern

/-- C9: the two concrete log lines parse, derive the same incident key (so
they form exactly one group), and the runbook lookup on the key's pattern
half returns the generic fallback SOP string. -/
theorem end_to_end_two_timeout_lines :
    parse_log_line "2024-01-01T00:00:00 [orders] ERROR: connection timed out after 30s" =
      some ⟨"2024-01-01T00:00:00", "orders", "ERROR", "connection timed out after 30s"⟩ ∧
    parse_log_line "2024-01-01T00:00:05 [orders] ERROR: connection timed out after 45s" =
      some ⟨"2024-01-01T00:00:05", "orders", "ERROR", "connection timed out after 45s"⟩ ∧
    derive_incident_key ⟨"2024-01-01T00:00:00", "orders", "ERROR", "connection timed out after 30s"⟩ =
      derive_incident_key ⟨"2024-01-01T00:00:05", "orders", "ERROR", "connection timed out after 45s"⟩ ∧
    group_incidents
        [⟨"2024-01-01T00:00:00", "orders", "ERROR", "connection timed out after 30s"⟩,
         ⟨"2024-01-01T00:00:05", "orders", "ERROR", "connection timed out after 45s"⟩] =
      [("orders::connection timed out after <NUM>s",
        [⟨"2024-01-01T00:00:00", "orders", "ERROR", "connection timed out after 30s"⟩,
         ⟨"2024-01-01T00:00:05", "orders", "ERROR", "connection timed out after 45s"⟩])] ∧
    (splitOnColons ("orders::connection timed out after <NUM>s" : String).data).map Prod.snd =
      some ("connection timed out after <NUM>s" : String).data ∧
    retrieve_runbook "connection timed out after <NUM>s" =
      "No specific runbook found. Follow general triage SOP." := by
  refine ⟨?_, ?_, ?_, ?_, ?_, ?_⟩ <;> decide

/-- C10: the service half of an incident key is not case-folded: two records
with identical messages whose services differ only in letter case get
different keys and land in two separate incident groups. -/
theorem service_case_not_folded :
    derive_incident_key ⟨"t1", "Orders", "ERROR", "boom"⟩ ≠
      derive_incident_key ⟨"t2", "orders", "ERROR", "boom"⟩ ∧
    group_incidents [⟨"t1", "Orders", "ERROR", "boom"⟩, ⟨"t2", "orders", "ERROR", "boom"⟩] =
      [("Orders::boom", [⟨"t1", "Orders", "ERROR", "boom"⟩]),
       ("orders::boom", [⟨"t2", "orders", "ERROR", "boom"⟩])] := by
  refine ⟨?_, ?_⟩ <;> decide

/-! ### C7 helper lemmas -/

theorem insertGroup_map_fst (gs : List (String × List LogEntry)) (k : String) (e : LogEntry) :
    (insertGroup gs k e).map Prod.fst =
      if k ∈ gs.map Prod.fst then gs.map Prod.fst else gs.map Prod.fst ++ [k] := by
  induction gs with
  | nil => simp [insertGroup]
  | cons kv rest ih =>
    obtain ⟨k', es⟩ := kv
    by_cases h : k' = k
    · subst h
      simp [insertGroup]
    · have h2 : ¬ (k = k') := fun hh => h hh.symm
      simp only [insertGroup, if_neg h, List.map_cons, ih, List.mem_cons, h2, false_or]
      split <;> simp

theorem lookupG_insertGroup (gs : List (String × List LogEntry)) (k k' : String) (e : LogEntry) :
    lookupG (insertGroup gs k e) k' =
      (if k' = k then some (((lookupG gs k).getD []) ++ [e]) else lookupG gs k') := by
  induction gs with
  | nil =>
    by_cases h : k' = k
    · subst h
      simp [insertGroup, lookupG]
    · have h2 : ¬ (k = k') := fun hh => h hh.symm
      simp [insertGroup, lookupG, h, h2]
  | cons kv rest ih =>
    obtain ⟨k1, es⟩ := kv
    by_cases h1 : k1 = k
    · subst h1
      by_cases h2 : k' = k1
      · subst h2
        simp [insertGroup, lookupG]
      · have h3 : ¬ (k1 = k') := fun hh => h2 hh.symm
        simp [insertGroup, lookupG, h2, h3]
    · by_cases h2 : k1 = k'
      · subst h2
        simp [insertGroup, lookupG, h1]
      · simp [insertGroup, lookupG, h1, h2, ih]

theorem mem_firstSeenKeys_aux (xs : List String) (acc : List String) (k : String) :
    (k ∈ xs.foldl (fun a x => if x ∈ a then a else a ++ [x]) acc) ↔ (k ∈ acc ∨ k ∈ xs) := by
  induction xs generalizing acc with
  | nil => simp
  | cons x xs ih =>
    simp only [List.foldl_cons, ih, List.mem_cons]
    by_cases h : x ∈ acc
    · rw [if_pos h]
      constructor
      · rintro (h1 | h1)
        · exact Or.inl h1
        · exact Or.inr (Or.inr h1)
      · rintro (h1 | h1 | h1)
        · exact Or.inl h1
        · exact Or.inl (h1 ▸ h)
        · exact Or.inr h1
    · rw [if_neg h]
      simp only [List.mem_append, List.mem_singleton]
      constructor
      · rintro ((h1 | h1) | h1)
        · exact Or.inl h1
        · exact Or.inr (Or.inl h1)
        · exact Or.inr (Or.inr h1)
      · rintro (h1 | h1 | h1)
        · exact Or.inl (Or.inl h1)
        · exact Or.inl (Or.inr h1)
        · exact Or.inr h1

theorem mem_firstSeenKeys (xs : List String) (k : String) :
    k ∈ firstSeenKeys xs ↔ k ∈ xs := by
  simpa using mem_firstSeenKeys_aux xs [] k

theorem firstSeenKeys_concat (xs : List String) (x : String) :
    firstSeenKeys (xs ++ [x]) =
      (if x ∈ firstSeenKeys xs then firstSeenKeys xs else firstSeenKeys xs ++ [x]) := by
  simp [firstSeenKeys, List.foldl_append]

theorem filter_filter_concat (p : LogEntry → Bool) (l : List LogEntry) (e : LogEntry)
    (ha : isActionable e = true) :
    List.filter p (List.filter isActionable (l ++ [e])) =
      List.filter p (List.filter isActionable l) ++ (if p e = true then [e] else []) := by
  rw [List.filter_append]
  have h1 : List.filter isActionable [e] = [e] := by simp [List.filter_cons, ha]
  rw [h1, List.filter_append]
  congr 1
  simp [List.filter_cons]

theorem group_incidents_concat (l : List LogEntry) (e : LogEntry) :
    group_incidents (l ++ [e]) =
      (if isActionable e
       then insertGroup (group_incidents l) (derive_incident_key e) e
       else group_incidents l) := by
  simp [group_incidents, List.foldl_append]

/-- C7: `group_incidents` retains exactly the ERROR/WARN records; every key
maps to the input-order subsequence of retained records deriving that key,
and the mapping's iteration order is the order in which keys were first
seen. -/
theorem group_incidents_spec (entries : List LogEntry) :
    ((group_incidents entries).map Prod.fst =
      firstSeenKeys ((entries.filter isActionable).map derive_incident_key)) ∧
    ∀ k : String, lookupG (group_incidents entries) k =
      (if ((entries.filter isActionable).filter (fun e => derive_incident_key e == k)) = []
       then none
       else some ((entries.filter isActionable).filter (fun e => derive_incident_key e == k))) := by
  induction entries using List.reverseRecOn with
  | nil => exact ⟨rfl, fun k => rfl⟩
  | append_singleton l e ih =>
    obtain ⟨ih1, ih2⟩ := ih
    by_cases ha : isActionable e
    · constructor
      · rw [group_incidents_concat, if_pos ha, insertGroup_map_fst, ih1,
          List.filter_append, List.map_append]
        simp only [List.filter_cons, ha, if_true, List.filter_nil, List.map_cons, List.map_nil]
        rw [firstSeenKeys_concat]
      · intro k
        rw [group_incidents_concat, if_pos ha, lookupG_insertGroup,
          filter_filter_concat _ l e ha]
        by_cases hk : k = derive_incident_key e
        · subst hk
          rw [if_pos rfl, ih2]
          simp only [beq_self_eq_true, if_true]
          by_cases hsel : (List.filter (fun x => derive_incident_key x == derive_incident_key e)
              (List.filter isActionable l)) = []
          · rw [hsel]
            simp
          · rw [if_neg hsel, if_neg (by simp [hsel])]
            simp
        · have hk' : (derive_incident_key e == k) = false := by
            simp only [beq_eq_false_iff_ne, ne_eq]
            exact fun hh => hk hh.symm
          rw [if_neg hk, ih2 k]
          simp [hk']
    · constructor
      · rw [group_incidents_concat, if_neg ha, ih1, List.filter_append]
        simp [List.filter_cons, ha]
      · intro k
        rw [group_incidents_concat, if_neg ha, ih2 k, List.filter_append]
        simp [List.filter_cons, ha]

/-! ### C8 helper lemmas -/

theorem data_mk (l : List Char) : (String.mk l).data = l := rfl

theorem rstripWS_concat_ws {c : Char} (h : isWS c = true) (l : List Char) :
    rstripWS (l ++ [c]) = rstripWS l := by
  simp [rstripWS, List.reverse_append, List.dropWhile_cons, h]

theorem rstripWS_concat_nonws {c : Char} (h : isWS c = false) (l : List Char) :
    rstripWS (l ++ [c]) = l ++ [c] := by
  simp [rstripWS, List.reverse_append, List.dropWhile_cons, h]

theorem pystrip_wrap (c d : Char) {mid : List Char}
    (hhead : mid.head? = some c) (hc : isWS c = false)
    (hlast : mid.getLast? = some d) (hd : isWS d = false) :
    pystrip ('\n' :: (mid ++ ['\n'])) = mid := by
  have h1 : mid ≠ [] := by
    intro hh
    rw [hh] at hhead
    exact absurd hhead (by simp)
  have hsplit : mid.dropLast ++ [mid.getLast h1] = mid := List.dropLast_concat_getLast h1
  have hdl : isWS (mid.getLast h1) = false := by
    have := List.getLast?_eq_getLast mid h1
    rw [this] at hlast
    injection hlast with hh
    rw [hh]
    exact hd
  obtain ⟨a, as, ha⟩ := List.exists_cons_of_ne_nil h1
  have haws : isWS a = false := by
    rw [ha] at hhead
    injection hhead with hh
    rw [← hh] at hc
    exact hc
  rw [pystrip]
  have e1 : ('\n' :: (mid ++ ['\n'])) = ('\n' :: mid) ++ ['\n'] := by simp
  rw [e1, rstripWS_concat_ws (by decide)]
  have e2 : ('\n' :: mid) = ('\n' :: mid.dropLast) ++ [mid.getLast h1] := by
    rw [List.cons_append, hsplit]
  rw [e2, rstripWS_concat_nonws hdl, List.cons_append, hsplit,
    List.dropWhile_cons_of_pos (by decide), ha,
    List.dropWhile_cons_of_neg (by simp [haws])]

/-- C8: whenever the incident key splits at its first `"::"`, the prompt is
exactly the fixed instruction-plus-worked-example header, the last (up to)
five records each rendered as `timestamp [level] message` and
newline-joined, the runbook context retrieved for the key's pattern half,
and a final `"Report:"` marker with no trailing content. -/
theorem build_summary_prompt_shape (incident_key : String) (entries : List LogEntry)
    (srv pat : List Char) (h : splitOnColons incident_key.data = some (srv, pat)) :
    build_summary_prompt incident_key entries =
      some ("Given the logs, output a triage report.\n\n[EXAMPLE]\nInput Logs: 2024-01-01 [orders] ERROR connection timed out\nRunbook context: Check DB.\nReport:\nSummary: Database connection failing intermittently.\nSeverity: P2\nRoot Cause: High database load or network partition.\nAction Items: Check RDS CPU, Investigate VPC logs\n\n[TARGET]\nInput Logs:\n"
        ++ String.intercalate "\n" ((lastN 5 entries).map renderLog)
        ++ "\nRunbook context: " ++ retrieve_runbook (String.mk pat) ++ "\nReport:") := by
  unfold build_summary_prompt
  rw [h]
  show some (String.mk (pystrip (promptLit1 ++
      String.intercalate "\n" ((lastN 5 entries).map renderLog) ++ promptLit2 ++
      retrieve_runbook (String.mk pat) ++ promptLit3).data)) = _
  congr 1
  apply String.ext
  simp only [data_mk, String.data_append]
  have hA : promptLit1.data =
      '\n' :: ("Given the logs, output a triage report.\n\n[EXAMPLE]\nInput Logs: 2024-01-01 [orders] ERROR connection timed out\nRunbook context: Check DB.\nReport:\nSummary: Database connection failing intermittently.\nSeverity: P2\nRoot Cause: High database load or network partition.\nAction Items: Check RDS CPU, Investigate VPC logs\n\n[TARGET]\nInput Logs:\n" : String).data := by
    rfl
  have hC : promptLit3.data = ("\nReport:" : String).data ++ ['\n'] := by rfl
  rw [hA, hC]
  rw [show ('\n' :: ("Given the logs, output a triage report.\n\n[EXAMPLE]\nInput Logs: 2024-01-01 [orders] ERROR connection timed out\nRunbook context: Check DB.\nReport:\nSummary: Database connection failing intermittently.\nSeverity: P2\nRoot Cause: High database load or network partition.\nAction Items: Check RDS CPU, Investigate VPC logs\n\n[TARGET]\nInput Logs:\n" : String).data) ++
      (String.intercalate "\n" ((lastN 5 entries).map renderLog)).data ++ promptLit2.data ++
      (retrieve_runbook (String.mk pat)).data ++ (("\nReport:" : String).data ++ ['\n']) =
    '\n' :: ((("Given the logs, output a triage report.\n\n[EXAMPLE]\nInput Logs: 2024-01-01 [orders] ERROR connection timed out\nRunbook context: Check DB.\nReport:\nSummary: Database connection failing intermittently.\nSeverity: P2\nRoot Cause: High database load or network partition.\nAction Items: Check RDS CPU, Investigate VPC logs\n\n[TARGET]\nInput Logs:\n" : String).data ++
      (String.intercalate "\n" ((lastN 5 entries).map renderLog)).data ++ promptLit2.data ++
      (retrieve_runbook (String.mk pat)).data ++ ("\nReport:" : String).data) ++ ['\n'])
    from by simp]
  rw [pystrip_wrap 'G' ':' ?_ (by decide) ?_ (by decide)]
  · simp [promptLit2]
  · simp only [List.head?_append]
    rfl
  · simp only [List.getLast?_append]
    rfl

/-- Witness for C8 at a concrete key and empty entry list. -/
theorem build_summary_prompt_shape_witness :
    splitOnColons ("orders::slow response" : String).data =
      some (("orders" : String).data, ("slow response" : String).data) ∧
    build_summary_prompt "orders::slow response" [] =
      some ("Given the logs, output a triage report.\n\n[EXAMPLE]\nInput Logs: 2024-01-01 [orders] ERROR connection timed out\nRunbook context: Check DB.\nReport:\nSummary: Database connection failing intermittently.\nSeverity: P2\nRoot Cause: High database load or network partition.\nAction Items: Check RDS CPU, Investigate VPC logs\n\n[TARGET]\nInput Logs:\n"
        ++ String.intercalate "\n" ((lastN 5 ([] : List LogEntry)).map renderLog)
        ++ "\nRunbook context: " ++ retrieve_runbook (String.mk ("slow response" : String).data)
        ++ "\nReport:") :=
  ⟨by decide,
   build_summary_prompt_shape "orders::slow response" [] ("orders" : String).data
     ("slow response" : String).data (by decide)⟩

/-! ### C1 helper lemmas: character classes under lower-casing -/

theorem isDigitChar_iff {c : Char} : isDigitChar c = true ↔ 48 ≤ c.toNat ∧ c.toNat ≤ 57 := by
  simp [isDigitChar]

theorem isWS_iff {c : Char} :
    isWS c = true ↔ (c.toNat = 32 ∨ c.toNat = 9 ∨ c.toNat = 10 ∨ c.toNat = 13 ∨
      c.toNat = 11 ∨ c.toNat = 12) := by
  simp only [isWS, Bool.or_eq_true, beq_iff_eq]
  tauto

theorem toNat_char_ofNat_valid {n : Nat} (h : n < 55296) : (Char.ofNat n).toNat = n := by
  rw [Char.ofNat, dif_pos (Or.inl h)]
  simp [Char.ofNatAux, Char.toNat, UInt32.toNat]

theorem toNat_toLower (c : Char) :
    (Char.toLower c).toNat =
      (if 65 ≤ c.toNat ∧ c.toNat ≤ 90 then c.toNat + 32 else c.toNat) := by
  rw [Char.toLower]
  split
  · rename_i h
    exact toNat_char_ofNat_valid (by omega)
  · rfl

theorem toLower_eq_self_of_not_upper {c : Char} (h : ¬ (65 ≤ c.toNat ∧ c.toNat ≤ 90)) :
    Char.toLower c = c := by
  rw [Char.toLower]
  exact if_neg h

theorem isDigitChar_toLower (c : Char) : isDigitChar (Char.toLower c) = isDigitChar c := by
  by_cases h : 65 ≤ c.toNat ∧ c.toNat ≤ 90
  · have h1 : (Char.toLower c).toNat = c.toNat + 32 := by rw [toNat_toLower, if_pos h]
    have e1 : isDigitChar (Char.toLower c) = false := by
      rw [← Bool.not_eq_true, isDigitChar_iff, h1]
      omega
    have e2 : isDigitChar c = false := by
      rw [← Bool.not_eq_true, isDigitChar_iff]
      omega
    rw [e1, e2]
  · rw [toLower_eq_self_of_not_upper h]

theorem ws_not_digit {c : Char} (h : isWS c = true) : isDigitChar c = false := by
  rw [isWS_iff] at h
  rw [← Bool.not_eq_true, isDigitChar_iff]
  omega

theorem pyLower_ws {w : List Char} (h : ∀ c ∈ w, isWS c = true) : pyLower w = w := by
  induction w with
  | nil => rfl
  | cons c cs ih =>
    have hc := h c (by simp)
    rw [isWS_iff] at hc
    simp only [pyLower, List.map_cons]
    rw [toLower_eq_self_of_not_upper (by omega)]
    have h2 := ih fun x hx => h x (by simp [hx])
    simp only [pyLower] at h2
    rw [h2]

/-! ### C1 helper lemmas: digit-run substitution -/

theorem subNumAux_true_eq (cs : List Char) :
    subNumAux true cs = subNumAux false (cs.dropWhile isDigitChar) := by
  induction cs with
  | nil => rfl
  | cons c cs ih =>
    by_cases h : isDigitChar c = true
    · simp [subNumAux, h, List.dropWhile_cons, ih]
    · simp only [Bool.not_eq_true] at h
      simp [subNumAux, h, List.dropWhile_cons]

theorem subNumAux_false_nodigit_append {a : List Char} (b : List Char)
    (h : ∀ c ∈ a, isDigitChar c = false) :
    subNumAux false (a ++ b) = a ++ subNumAux false b := by
  induction a with
  | nil => rfl
  | cons c cs ih =>
    have hc := h c (by simp)
    simp only [List.cons_append, subNumAux, hc, Bool.false_eq_true, if_false, List.append_eq]
    rw [ih fun x hx => h x (by simp [hx])]

theorem subNumAux_alldigit_skip {d : List Char} (b : List Char)
    (h : ∀ c ∈ d, isDigitChar c = true) :
    subNumAux true (d ++ b) = subNumAux true b := by
  induction d with
  | nil => rfl
  | cons c cs ih =>
    have hc := h c (by simp)
    simp only [List.cons_append, subNumAux, hc, if_true, List.nil_append, List.append_eq]
    exact ih fun x hx => h x (by simp [hx])

theorem subNumAux_digits_head {d : List Char} (b : List Char) (hne : d ≠ [])
    (h : ∀ c ∈ d, isDigitChar c = true) :
    subNumAux false (d ++ b) = numTok ++ subNumAux false (b.dropWhile isDigitChar) := by
  obtain ⟨c, cs, rfl⟩ := List.exists_cons_of_ne_nil hne
  have hc := h c (by simp)
  simp only [List.cons_append, subNumAux, hc, if_true, List.append_eq,
    Bool.false_eq_true, if_false]
  rw [subNumAux_alldigit_skip b fun x hx => h x (by simp [hx]), subNumAux_true_eq]

theorem subNumAux_id_of_nodigit {b : List Char} (h : ∀ c ∈ b, isDigitChar c = false) :
    ∀ flag : Bool, subNumAux flag b = b := by
  induction b with
  | nil => intro flag; cases flag <;> rfl
  | cons c cs ih =>
    intro flag
    have hc := h c (by simp)
    simp only [subNumAux, hc, Bool.false_eq_true, if_false]
    rw [ih (fun x hx => h x (by simp [hx])) false]

theorem subNumAux_append_nodigit {b : List Char} (h : ∀ c ∈ b, isDigitChar c = false) :
    ∀ (flag : Bool) (a : List Char), subNumAux flag (a ++ b) = subNumAux flag a ++ b := by
  intro flag a
  induction a generalizing flag with
  | nil =>
    simp only [List.nil_append]
    rw [subNumAux_id_of_nodigit h flag]
    cases flag <;> rfl
  | cons c cs ih =>
    by_cases hc : isDigitChar c = true
    · simp only [List.cons_append, subNumAux, hc, if_true, List.append_eq]
      rw [ih true, List.append_assoc]
    · simp only [Bool.not_eq_true] at hc
      simp only [List.cons_append, subNumAux, hc, Bool.false_eq_true, if_false, List.append_eq]
      rw [ih false]

/-! ### C1 helper lemmas: aligned decompositions -/

theorem renderPieces_dropWhile_digit {r : List Piece} (h1 : headLit r = true)
    (h2 : goodPieces r = true) :
    (renderPieces r).dropWhile isDigitChar = renderPieces r := by
  cases r with
  | nil => rfl
  | cons p r' =>
    cases p with
    | lit s =>
      have hne : s ≠ [] := by
        simpa [headLit, List.isEmpty_iff] using h1
      obtain ⟨c, cs, rfl⟩ := List.exists_cons_of_ne_nil hne
      simp only [goodPieces, Bool.and_eq_true, List.all_eq_true] at h2
      have hc : isDigitChar c = false := by simpa using h2.1 c (by simp)
      simp only [renderPieces, List.cons_append]
      rw [List.dropWhile_cons_of_neg (by simp [hc])]
    | digits d => simp [headLit] at h1

theorem subNum_renderPieces_aligned {ps1 ps2 : List Piece} (hal : Aligned ps1 ps2) :
    goodPieces ps1 = true → goodPieces ps2 = true →
    subNumAux false (renderPieces ps1) = subNumAux false (renderPieces ps2) := by
  induction hal with
  | nil => intro _ _; rfl
  | lit s h ih =>
    intro hg1 hg2
    simp only [goodPieces, Bool.and_eq_true, List.all_eq_true] at hg1 hg2
    have hfree : ∀ c ∈ s, isDigitChar c = false := by
      intro c hc
      simpa using hg1.1 c hc
    simp only [renderPieces]
    rw [subNumAux_false_nodigit_append _ hfree, subNumAux_false_nodigit_append _ hfree,
      ih hg1.2 hg2.2]
  | num d1 d2 h ih =>
    intro hg1 hg2
    simp only [goodPieces, Bool.and_eq_true, List.all_eq_true] at hg1 hg2
    obtain ⟨⟨⟨hne1, hall1⟩, hhl1⟩, hg1'⟩ := hg1
    obtain ⟨⟨⟨hne2, hall2⟩, hhl2⟩, hg2'⟩ := hg2
    have hne1' : d1 ≠ [] := by simpa [List.isEmpty_iff] using hne1
    have hne2' : d2 ≠ [] := by simpa [List.isEmpty_iff] using hne2
    simp only [renderPieces]
    rw [subNumAux_digits_head _ hne1' hall1, subNumAux_digits_head _ hne2' hall2,
      renderPieces_dropWhile_digit hhl1 hg1', renderPieces_dropWhile_digit hhl2 hg2',
      ih hg1' hg2']

theorem renderPieces_map_lower (ps : List Piece) :
    renderPieces (ps.map lowerPiece) = pyLower (renderPieces ps) := by
  induction ps with
  | nil => rfl
  | cons p r ih =>
    cases p with
    | lit s => simp [renderPieces, lowerPiece, pyLower, List.map_append, ih]
    | digits d => simp [renderPieces, lowerPiece, pyLower, List.map_append, ih]

theorem aligned_map_lower {ps1 ps2 : List Piece} (h : Aligned ps1 ps2) :
    Aligned (ps1.map lowerPiece) (ps2.map lowerPiece) := by
  induction h with
  | nil => exact Aligned.nil
  | lit s h ih => exact Aligned.lit _ ih
  | num d1 d2 h ih => exact Aligned.num _ _ ih

theorem headLit_map_lower {r : List Piece} (h : headLit r = true) :
    headLit (r.map lowerPiece) = true := by
  cases r with
  | nil => rfl
  | cons q r' =>
    cases q with
    | lit s =>
      simp only [headLit, List.isEmpty_iff] at h
      simpa [headLit, lowerPiece, pyLower, List.isEmpty_iff, List.map_eq_nil_iff] using h
    | digits d => simp [headLit] at h

theorem goodPieces_map_lower {ps : List Piece} (h : goodPieces ps = true) :
    goodPieces (ps.map lowerPiece) = true := by
  induction ps with
  | nil => rfl
  | cons p r ih =>
    cases p with
    | lit s =>
      simp only [goodPieces, Bool.and_eq_true, List.all_eq_true] at h
      simp only [List.map_cons, lowerPiece, goodPieces, Bool.and_eq_true, List.all_eq_true]
      refine ⟨?_, ih h.2⟩
      intro x hx
      obtain ⟨c, hc, rfl⟩ := List.mem_map.mp hx
      have := h.1 c hc
      simpa [isDigitChar_toLower] using this
    | digits d =>
      simp only [goodPieces, Bool.and_eq_true, List.all_eq_true] at h
      obtain ⟨⟨⟨hne, hall⟩, hhl⟩, hg⟩ := h
      simp only [List.map_cons, lowerPiece, goodPieces, Bool.and_eq_true, List.all_eq_true]
      refine ⟨⟨⟨?_, ?_⟩, headLit_map_lower hhl⟩, ih hg⟩
      · simpa [pyLower, List.isEmpty_iff, List.map_eq_nil_iff, List.isEmpty_iff] using hne
      · intro x hx
        obtain ⟨c, hc, rfl⟩ := List.mem_map.mp (by simpa [pyLower] using hx)
        simpa [isDigitChar_toLower] using hall c hc

/-! ### C1 helper lemmas: whitespace collapse and strip -/

theorem collapseWSAux_true_eq (cs : List Char) :
    collapseWSAux true cs = collapseWSAux false (cs.dropWhile isWS) := by
  induction cs with
  | nil => rfl
  | cons c cs ih =>
    by_cases h : isWS c = true
    · simp [collapseWSAux, h, List.dropWhile_cons, ih]
    · simp only [Bool.not_eq_true] at h
      simp [collapseWSAux, h, List.dropWhile_cons]

theorem collapseWS_cons (c : Char) (cs : List Char) :
    collapseWS (c :: cs) =
      (if isWS c = true then ' ' :: collapseWS (cs.dropWhile isWS) else c :: collapseWS cs) := by
  by_cases h : isWS c = true
  · simp only [collapseWS, collapseWSAux, h, if_true]
    rw [collapseWSAux_true_eq]
    rfl
  · simp only [Bool.not_eq_true] at h
    simp [collapseWS, collapseWSAux, h]

theorem rstripWS_cons (c : Char) (l : List Char) :
    rstripWS (c :: l) =
      (if rstripWS l = [] then (if isWS c = true then [] else [c]) else c :: rstripWS l) := by
  by_cases h : rstripWS l = []
  · have h' : l.reverse.dropWhile isWS = [] := by
      have h2 := congrArg List.reverse h
      simpa [rstripWS] using h2
    rw [if_pos h]
    simp only [rstripWS, List.reverse_cons]
    rw [List.dropWhile_append]
    simp only [h', List.isEmpty_nil, if_true]
    by_cases hc : isWS c = true
    · simp [List.dropWhile_cons, hc]
    · simp only [Bool.not_eq_true] at hc
      simp [List.dropWhile_cons, hc]
  · rw [if_neg h]
    simp only [rstripWS, List.reverse_cons]
    rw [List.dropWhile_append]
    have h' : (l.reverse.dropWhile isWS).isEmpty = false := by
      rw [← Bool.not_eq_true, List.isEmpty_iff]
      intro hh
      exact h (by simp [rstripWS, hh])
    simp only [h', Bool.false_eq_true, if_false]
    rw [List.reverse_append]
    rfl

theorem pystrip_cons_ws {c : Char} (h : isWS c = true) (l : List Char) :
    pystrip (c :: l) = pystrip l := by
  rw [pystrip, rstripWS_cons]
  by_cases h2 : rstripWS l = []
  · rw [if_pos h2, if_pos h, pystrip, h2]
  · rw [if_neg h2, pystrip]
    simp [List.dropWhile_cons, h]

theorem dropWhile_ws_eq_nil {l : List Char} (h : ∀ c ∈ l, isWS c = true) :
    l.dropWhile isWS = [] := by
  induction l with
  | nil => rfl
  | cons c cs ih =>
    rw [List.dropWhile_cons_of_pos (h c (by simp))]
    exact ih fun x hx => h x (by simp [hx])

theorem rstrip_collapse_allws {w : List Char} (hw : ∀ c ∈ w, isWS c = true) :
    rstripWS (collapseWS w) = [] := by
  cases w with
  | nil => rfl
  | cons c w' =>
    rw [collapseWS_cons, if_pos (hw c (by simp)),
      dropWhile_ws_eq_nil fun x hx => hw x (by simp [hx])]
    decide

theorem pystrip_collapse_ws_left {w : List Char} (hw : ∀ c ∈ w, isWS c = true)
    (Y : List Char) :
    pystrip (collapseWS (w ++ Y)) = pystrip (collapseWS Y) := by
  cases w with
  | nil => rfl
  | cons c w' =>
    have hc := hw c (by simp)
    have hw' : ∀ x ∈ w', isWS x = true := fun x hx => hw x (by simp [hx])
    rw [List.cons_append, collapseWS_cons, if_pos hc,
      List.dropWhile_append_of_pos hw', pystrip_cons_ws (by decide)]
    cases Y with
    | nil => rfl
    | cons d Y' =>
      by_cases hd : isWS d = true
      · rw [List.dropWhile_cons_of_pos hd, collapseWS_cons, if_pos hd,
          pystrip_cons_ws (by decide)]
      · rw [List.dropWhile_cons_of_neg (by simp [hd])]

theorem rstrip_collapse_ws_right {w : List Char} (hw : ∀ c ∈ w, isWS c = true) :
    ∀ Y : List Char, rstripWS (collapseWS (Y ++ w)) = rstripWS (collapseWS Y) := by
  have main : ∀ (n : Nat) (Y : List Char), Y.length ≤ n →
      rstripWS (collapseWS (Y ++ w)) = rstripWS (collapseWS Y) := by
    intro n
    induction n with
    | zero =>
      intro Y hY
      have hnil : Y = [] := List.eq_nil_of_length_eq_zero (Nat.le_zero.mp hY)
      subst hnil
      rw [List.nil_append, rstrip_collapse_allws hw]
      rfl
    | succ n ih =>
      intro Y hY
      cases Y with
      | nil =>
        rw [List.nil_append, rstrip_collapse_allws hw]
        rfl
      | cons c Y' =>
        simp only [List.length_cons] at hY
        by_cases hc : isWS c = true
        · rw [List.cons_append, collapseWS_cons, if_pos hc, collapseWS_cons, if_pos hc,
            List.dropWhile_append]
          by_cases hE : (Y'.dropWhile isWS).isEmpty = true
          · rw [if_pos hE, dropWhile_ws_eq_nil hw]
            have hYnil : Y'.dropWhile isWS = [] := by simpa [List.isEmpty_iff] using hE
            rw [hYnil]
          · rw [if_neg (by simp [hE])]
            have hsub : List.Sublist (Y'.dropWhile isWS) Y' := List.dropWhile_sublist isWS
            have hlen : (Y'.dropWhile isWS).length ≤ n := by
              have := hsub.length_le
              omega
            have hin := ih (Y'.dropWhile isWS) hlen
            rw [rstripWS_cons, rstripWS_cons, hin]
        · rw [List.cons_append, collapseWS_cons, if_neg hc, collapseWS_cons, if_neg hc]
          have hin := ih Y' (by omega)
          rw [rstripWS_cons, rstripWS_cons, hin]
  intro Y
  exact main Y.length Y (Nat.le_refl _)

theorem pystrip_collapse_ws_right {w : List Char} (hw : ∀ c ∈ w, isWS c = true)
    (Y : List Char) :
    pystrip (collapseWS (Y ++ w)) = pystrip (collapseWS Y) := by
  rw [pystrip, pystrip, rstrip_collapse_ws_right hw Y]

/-! ### C1: the key invariance theorem -/

theorem normalizeMsg_decomposed {wl wr : List Char} {ps : List Piece}
    (hwl : ∀ c ∈ wl, isWS c = true) (hwr : ∀ c ∈ wr, isWS c = true)
    (hg : goodPieces ps = true) :
    normalizeMsg (wl ++ (renderPieces ps ++ wr)) =
      pystrip (collapseWS (subNumAux false (renderPieces (ps.map lowerPiece)))) := by
  have _hg := hg
  rw [normalizeMsg]
  have e1 : pyLower (wl ++ (renderPieces ps ++ wr)) =
      wl ++ (renderPieces (ps.map lowerPiece) ++ wr) := by
    simp only [pyLower, List.map_append]
    have l1 : List.map Char.toLower wl = wl := pyLower_ws hwl
    have l2 : List.map Char.toLower wr = wr := pyLower_ws hwr
    have l3 : List.map Char.toLower (renderPieces ps) = renderPieces (ps.map lowerPiece) := by
      rw [renderPieces_map_lower]
      rfl
    rw [l1, l2, l3]
  rw [e1]
  have e2 : subNum (wl ++ (renderPieces (ps.map lowerPiece) ++ wr)) =
      wl ++ (subNumAux false (renderPieces (ps.map lowerPiece)) ++ wr) := by
    rw [subNum, subNumAux_false_nodigit_append _ (fun c hc => ws_not_digit (hwl c hc)),
      subNumAux_append_nodigit (fun c hc => ws_not_digit (hwr c hc)) false]
  rw [e2, pystrip_collapse_ws_left hwl, pystrip_collapse_ws_right hwr]

/-- C1: two records with the same service whose messages are identical except
for the values of maximal decimal-digit runs in the same positions and for
the surrounding whitespace derive the same incident key. -/
theorem derive_key_digit_ws_invariant (e1 e2 : LogEntry)
    (ps1 ps2 : List Piece) (w1l w1r w2l w2r : List Char)
    (hs : e1.service = e2.service)
    (hm1 : e1.message.data = w1l ++ (renderPieces ps1 ++ w1r))
    (hm2 : e2.message.data = w2l ++ (renderPieces ps2 ++ w2r))
    (hal : Aligned ps1 ps2)
    (hg1 : goodPieces ps1 = true) (hg2 : goodPieces ps2 = true)
    (hw1l : ∀ c ∈ w1l, isWS c = true) (hw1r : ∀ c ∈ w1r, isWS c = true)
    (hw2l : ∀ c ∈ w2l, isWS c = true) (hw2r : ∀ c ∈ w2r, isWS c = true) :
    derive_incident_key e1 = derive_incident_key e2 := by
  unfold derive_incident_key
  rw [hs]
  have n1 := normalizeMsg_decomposed hw1l hw1r hg1
  have n2 := normalizeMsg_decomposed hw2l hw2r hg2
  have nn := subNum_renderPieces_aligned (aligned_map_lower hal)
    (goodPieces_map_lower hg1) (goodPieces_map_lower hg2)
  rw [hm1, hm2, n1, n2, nn]

/-- Witness for C1: `"error code 30 hit "` and `"  error code 456 hit"` with
the same service derive the same key. -/
theorem derive_key_digit_ws_invariant_witness :
    Aligned [Piece.lit ("error code " : String).data, Piece.digits ("30" : String).data,
             Piece.lit (" hit" : String).data]
            [Piece.lit ("error code " : String).data, Piece.digits ("456" : String).data,
             Piece.lit (" hit" : String).data] ∧
    derive_incident_key ⟨"t1", "orders", "ERROR", "error code 30 hit "⟩ =
      derive_incident_key ⟨"t2", "orders", "ERROR", "  error code 456 hit"⟩ :=
  ⟨Aligned.lit _ (Aligned.num _ _ (Aligned.lit _ Aligned.nil)),
   derive_key_digit_ws_invariant
     ⟨"t1", "orders", "ERROR", "error code 30 hit "⟩
     ⟨"t2", "orders", "ERROR", "  error code 456 hit"⟩
     [Piece.lit ("error code " : String).data, Piece.digits ("30" : String).data,
      Piece.lit (" hit" : String).data]
     [Piece.lit ("error code " : String).data, Piece.digits ("456" : String).data,
      Piece.lit (" hit" : String).data]
     [] (" " : String).data ("  " : String).data []
     rfl (by decide) (by decide)
     (Aligned.lit _ (Aligned.num _ _ (Aligned.lit _ Aligned.nil)))
     (by decide) (by decide) (by decide) (by decide) (by decide) (by decide)⟩

/-! ### C6 helper lemmas -/

theorem takeWhile_all_stop {p : Char → Bool} {a rest : List Char} (ha : ∀ c ∈ a, p c = true)
    (hstop : ∀ c, rest.head? = some c → p c = false) :
    (a ++ rest).takeWhile p = a := by
  rw [List.takeWhile_append_of_pos ha]
  cases rest with
  | nil => simp
  | cons c cs =>
    rw [List.takeWhile_cons_of_neg (by simp [hstop c rfl])]
    simp

theorem dropWhile_all_stop {p : Char → Bool} {a rest : List Char} (ha : ∀ c ∈ a, p c = true)
    (hstop : ∀ c, rest.head? = some c → p c = false) :
    (a ++ rest).dropWhile p = rest := by
  rw [List.dropWhile_append_of_pos ha]
  cases rest with
  | nil => rfl
  | cons c cs => rw [List.dropWhile_cons_of_neg (by simp [hstop c rfl])]

theorem word_not_ws {c : Char} (h : isWordChar c = true) : isWS c = false := by
  rw [← Bool.not_eq_true, isWS_iff]
  simp only [isWordChar, Bool.or_eq_true, Bool.and_eq_true, decide_eq_true_eq,
    beq_iff_eq, isDigitChar_iff] at h
  rcases h with ((h | h) | h) | h
  · omega
  · omega
  · omega
  · subst h
    decide

theorem contains_eq_false_iff {l : List Char} {a : Char} :
    (l.contains a) = false ↔ ∀ c ∈ l, c ≠ a := by
  rw [← Bool.not_eq_true, List.contains_eq_any_beq, List.any_eq_true]
  simp only [beq_iff_eq]
  constructor
  · intro h c hc hne
    exact h ⟨c, hc, hne.symm⟩
  · rintro h ⟨c, hc, heq⟩
    exact h c hc heq.symm

theorem dotStarDollar_eq_some {rest m : List Char} (h : dotStarDollar rest = some m) :
    (rest = m ∨ rest = m ++ ['\n']) ∧ ∀ c ∈ m, c ≠ '\n' := by
  unfold dotStarDollar at h
  split at h
  · split at h
    · rename_i hcon hcond
      injection h with h'
      subst h'
      simp only [Bool.and_eq_true, beq_iff_eq, Bool.not_eq_true'] at hcond
      obtain ⟨hl, hnc⟩ := hcond
      have hne : rest ≠ [] := by
        intro hh
        rw [hh] at hl
        simp at hl
      refine ⟨Or.inr ?_, contains_eq_false_iff.mp hnc⟩
      have hsplit := List.dropLast_concat_getLast hne
      have hg : rest.getLast hne = '\n' := by
        have h2 := List.getLast?_eq_getLast rest hne
        rw [h2] at hl
        injection hl
      conv_lhs => rw [← hsplit, hg]
    · exact absurd h (by simp)
  · rename_i hcon
    injection h with h'
    subst h'
    have hc : rest.contains '\n' = false := by simpa using hcon
    exact ⟨Or.inl rfl, contains_eq_false_iff.mp hc⟩

theorem dotStarDollar_no_newline {m : List Char} (h : ∀ c ∈ m, c ≠ '\n') :
    dotStarDollar m = some m := by
  have hc : m.contains '\n' = false := contains_eq_false_iff.mpr h
  unfold dotStarDollar
  rw [hc]
  simp

theorem dotStarDollar_trailing_newline {m : List Char} (h : ∀ c ∈ m, c ≠ '\n') :
    dotStarDollar (m ++ ['\n']) = some m := by
  have hc : m.contains '\n' = false := contains_eq_false_iff.mpr h
  have h1 : (m ++ ['\n']).contains '\n' = true := by
    rw [List.contains_eq_any_beq, List.any_eq_true]
    exact ⟨'\n', by simp, by simp⟩
  unfold dotStarDollar
  rw [h1, List.getLast?_concat, List.dropLast_concat, hc]
  simp


theorem matchGrammar_some (t : List Char) (e : LogEntry) (h : matchGrammar t = some e) :
    MatchesG t e := by
  simp only [matchGrammar] at h
  split at h
  · exact absurd h (by simp)
  · split at h
    · exact absurd h (by simp)
    · rename_i h1 h2
      cases hDW : (t.dropWhile notWS).dropWhile isWS with
      | nil => rw [hDW] at h; exact absurd h (by simp [grabBracket])
      | cons b r3 =>
        rw [hDW] at h
        simp only [grabBracket] at h
        split at h
        · rename_i hb
          subst hb
          split at h
          · exact absurd h (by simp)
          · rename_i h3
            cases hR4 : r3.dropWhile (fun c => !(c == ']')) with
            | nil => rw [hR4] at h; exact absurd h (by simp [grabCloseBracket])
            | cons x r5 =>
              rw [hR4] at h
              simp only [grabCloseBracket] at h
              split at h
              · rename_i hx
                subst hx
                split at h
                · exact absurd h (by simp)
                · rename_i h4
                  simp only [grabLevel] at h
                  split at h
                  · exact absurd h (by simp)
                  · rename_i h5
                    cases hR7 : (r5.dropWhile isWS).dropWhile isWordChar with
                    | nil => rw [hR7] at h; exact absurd h (by simp [grabColon])
                    | cons y r8 =>
                      rw [hR7] at h
                      simp only [grabColon] at h
                      split at h
                      · rename_i hy
                        subst hy
                        split at h
                        · exact absurd h (by simp)
                        · rename_i h6
                          cases hdsd : dotStarDollar (r8.dropWhile isWS) with
                          | none => rw [hdsd] at h; exact absurd h (by simp [emitEntry])
                          | some msg =>
                            rw [hdsd] at h
                            simp only [emitEntry] at h
                            injection h with h'
                            subst h'
                            have E1 := List.takeWhile_append_dropWhile notWS t
                            have E2 := List.takeWhile_append_dropWhile isWS (List.dropWhile notWS t)
                            have E3 := List.takeWhile_append_dropWhile (fun c => !(c == ']')) r3
                            have E4 := List.takeWhile_append_dropWhile isWS r5
                            have E5 := List.takeWhile_append_dropWhile isWordChar (List.dropWhile isWS r5)
                            have E6 := List.takeWhile_append_dropWhile isWS r8
                            obtain ⟨hor, hnl⟩ := dotStarDollar_eq_some hdsd
                            refine ⟨List.takeWhile isWS (List.dropWhile notWS t),
                              List.takeWhile isWS r5, List.takeWhile isWS r8,
                              r8.dropWhile isWS, ?_, ?_, ?_, ?_, ?_, ?_, ?_, ?_, ?_, ?_, ?_,
                              ?_, ?_, ?_, ?_, ?_⟩
                            · conv_lhs => rw [← E1, ← E2, hDW, ← E3, hR4, ← E4, ← E5, hR7, ← E6]
                              simp [List.append_assoc]
                            · intro hh
                              exact h1 (by
                                have hh2 : List.takeWhile notWS t = [] := hh
                                rw [hh2]; rfl)
                            · intro c hc
                              have hp := List.mem_takeWhile_imp hc
                              simpa [notWS, Bool.not_eq_true'] using hp
                            · intro hh
                              exact h2 (by
                                have hh2 : List.takeWhile isWS (List.dropWhile notWS t) = [] := hh
                                rw [hh2]; rfl)
                            · intro c hc
                              exact List.mem_takeWhile_imp hc
                            · intro hh
                              exact h3 (by
                                have hh2 : List.takeWhile (fun c => !(c == ']')) r3 = [] := hh
                                rw [hh2]; rfl)
                            · intro c hc
                              have hp := List.mem_takeWhile_imp hc
                              simpa using hp
                            · intro hh
                              exact h4 (by
                                have hh2 : List.takeWhile isWS r5 = [] := hh
                                rw [hh2]; rfl)
                            · intro c hc
                              exact List.mem_takeWhile_imp hc
                            · intro hh
                              exact h5 (by
                                have hh2 : List.takeWhile isWordChar (List.dropWhile isWS r5) = [] := hh
                                rw [hh2]; rfl)
                            · intro c hc
                              exact List.mem_takeWhile_imp hc
                            · intro hh
                              exact h6 (by
                                have hh2 : List.takeWhile isWS r8 = [] := hh
                                rw [hh2]; rfl)
                            · intro c hc
                              exact List.mem_takeWhile_imp hc
                            · intro c hc
                              have hp := List.head?_dropWhile_not isWS r8
                              rw [hc] at hp
                              exact hp
                            · exact hor
                            · exact hnl
                      · exact absurd h (by simp)
              · exact absurd h (by simp)
        · exact absurd h (by simp)


theorem stop_of_head {p : Char → Bool} {a : Char} {l : List Char} (ha : p a = false) :
    ∀ c, ((a :: l) : List Char).head? = some c → p c = false := by
  intro c hc
  rw [List.head?_cons] at hc
  injection hc with hh
  rw [← hh]
  exact ha

theorem stop_of_append_cons {p : Char → Bool} {a : Char} {l r : List Char} (ha : p a = false) :
    ∀ c, (((a :: l) ++ r) : List Char).head? = some c → p c = false := by
  intro c hc
  rw [List.cons_append, List.head?_cons] at hc
  injection hc with hh
  rw [← hh]
  exact ha

theorem matchGrammar_of_matches (t : List Char) (e : LogEntry) (h : MatchesG t e) :
    matchGrammar t = some e := by
  obtain ⟨w1, w2, w3, tail, ht, h_tsne, h_tsws, h_w1ne, h_w1, h_srvne, h_srv, h_w2ne, h_w2,
    h_lvlne, h_lvl, h_w3ne, h_w3, h_tailhead, h_tail, h_msgnl⟩ := h
  obtain ⟨a1, w1', rfl⟩ := List.exists_cons_of_ne_nil h_w1ne
  obtain ⟨a2, w2', rfl⟩ := List.exists_cons_of_ne_nil h_w2ne
  obtain ⟨a3, w3', rfl⟩ := List.exists_cons_of_ne_nil h_w3ne
  obtain ⟨lc, lvl', hLVL⟩ := List.exists_cons_of_ne_nil h_lvlne
  have ht' : t = e.timestamp.data ++ ((a1 :: w1') ++ ('[' :: (e.service.data ++
      (']' :: ((a2 :: w2') ++ ((lc :: lvl') ++ (':' :: ((a3 :: w3') ++ tail)))))))) := by
    rw [ht, hLVL]
    simp [List.append_assoc]
  subst ht'
  have hTSall : ∀ c ∈ e.timestamp.data, notWS c = true := by
    intro c hc
    simp [notWS, h_tsws c hc]
  have hA1 : notWS a1 = false := by
    simp [notWS, h_w1 a1 (by simp)]
  have hSRVall : ∀ c ∈ e.service.data, (!(c == ']')) = true := by
    intro c hc
    simpa using h_srv c hc
  have hLC : isWS lc = false := word_not_ws (by rw [hLVL] at h_lvl; exact h_lvl lc (by simp))
  have hLVLall : ∀ c ∈ (lc :: lvl'), isWordChar c = true := by
    rw [hLVL] at h_lvl
    exact h_lvl
  simp only [matchGrammar]
  rw [takeWhile_all_stop hTSall (stop_of_append_cons hA1),
    dropWhile_all_stop hTSall (stop_of_append_cons hA1),
    if_neg (fun hh => h_tsne (List.isEmpty_iff.mp hh)),
    takeWhile_all_stop h_w1 (stop_of_head (by decide)),
    dropWhile_all_stop h_w1 (stop_of_head (by decide)),
    if_neg (by simp)]
  simp only [grabBracket]
  rw [if_pos trivial,
    takeWhile_all_stop hSRVall (stop_of_head (by decide)),
    dropWhile_all_stop hSRVall (stop_of_head (by decide)),
    if_neg (fun hh => h_srvne (List.isEmpty_iff.mp hh))]
  simp only [grabCloseBracket]
  rw [if_pos trivial,
    takeWhile_all_stop h_w2 (stop_of_append_cons hLC),
    dropWhile_all_stop h_w2 (stop_of_append_cons hLC),
    if_neg (by simp)]
  simp only [grabLevel]
  rw [takeWhile_all_stop hLVLall (stop_of_head (by decide)),
    dropWhile_all_stop hLVLall (stop_of_head (by decide)),
    if_neg (by simp)]
  simp only [grabColon]
  rw [if_pos trivial,
    takeWhile_all_stop h_w3 h_tailhead,
    dropWhile_all_stop h_w3 h_tailhead,
    if_neg (by simp)]
  rcases h_tail with htl | htl
  · rw [htl, dotStarDollar_no_newline h_msgnl]
    simp only [emitEntry]
    rw [← hLVL]
  · rw [htl, dotStarDollar_trailing_newline h_msgnl]
    simp only [emitEntry]
    rw [← hLVL]


/-- C6: `parse_log_line` succeeds with entry `e` exactly when the stripped
line decomposes by the grammar `<timestamp> [<service>] <level>: <message>`
into the fields of `e`, each captured exactly (no further trimming, no case
changes); in particular every line that is empty after stripping or fails
the grammar yields `none`. -/
theorem parse_log_line_grammar (line : String) (e : LogEntry) :
    parse_log_line line = some e ↔ MatchesG (pystrip line.data) e := by
  simp only [parse_log_line]
  by_cases hE : (pystrip line.data).isEmpty = true
  · rw [if_pos hE]
    constructor
    · intro h
      exact absurd h (by simp)
    · intro h
      exfalso
      obtain ⟨w1, w2, w3, tail, ht, h_tsne, -, -, -, -, -, -, -, -, -, -, -, -, -, -⟩ := h
      rw [List.isEmpty_iff] at hE
      rw [hE] at ht
      obtain ⟨c, cs, hcs⟩ := List.exists_cons_of_ne_nil h_tsne
      rw [hcs] at ht
      simp at ht
  · rw [if_neg hE]
    exact ⟨matchGrammar_some _ e, matchGrammar_of_matches _ e⟩
